import Mathlib

/-!
Verification of the goparser package: a shallow embedding of its
doc-tag-driven declaration walker, generic literal decoder,
sequence/mapping decoders and function-name filter, together with
theorems settling the specification claims.

The Go AST nodes consumed by the package (`go/ast`) are modelled by the
inductive types below; the package's generic functions (`parseBasicLit[V]`,
`getBasicValues[V]`, ...) become functions taking an explicit `PKind`
parameter ranging over the closed set of primitive instantiations, and Go
`nil`/panics become `Option`.
-/

/-- Literal token kinds of `go/token` relevant to `ast.BasicLit.Kind`. -/
inductive LitKind where
  | INT
  | FLOAT
  | IMAG
  | CHAR
  | STRING
deriving DecidableEq, Repr

/-- Models `ast.BasicLit`: a literal token kind together with its raw text. -/
structure BasicLit where
  kind : LitKind
  value : String
deriving DecidableEq, Repr

/-- Models the `ast.Expr` shapes the package inspects. `other` stands for
every further expression form of `go/ast` (function calls, unary
expressions, generic index expressions, ...), which the package's type
switches never name and therefore handle through their default behaviour. -/
inductive Expr where
  | ident (name : String)
  | basicLit (lit : BasicLit)
  | compositeLit (elts : List Expr)
  | keyValue (key : Expr) (value : Expr)
  | star (x : Expr)
  | selector (x : Expr) (sel : String)
  | other
deriving Repr

/-- A name bound by a `ValueSpec`. `hasObj` models whether `n.Obj != nil`
(the parser leaves `Obj` nil e.g. for the blank identifier). In a parsed
file, `n.Obj.Decl` is the enclosing `ValueSpec` itself, so `walkDecls`'s
`n.Obj.Decl.(*ast.ValueSpec)` re-access is modelled by using the enclosing
spec directly. -/
structure VName where
  name : String
  hasObj : Bool
deriving Repr

/-- Models `ast.ValueSpec`: bound names, doc-comment lines (raw text of each
`ast.Comment`, markers included; `[]` models both a nil `Doc` and an empty
list), and initializer expressions. -/
structure ValueSpec where
  names : List VName
  doc : List String
  values : List Expr
deriving Repr

/-- Models `ast.Spec`: either a `ValueSpec` or any other spec form. -/
inductive Spec where
  | value (s : ValueSpec)
  | otherSpec
deriving Repr

/-- Models `ast.FuncDecl`: function name, optional receiver type expression
(`none` models `Recv == nil`; in a parsed method the receiver field list is
non-empty, so `Recv.List[0].Type` is modelled directly), and optional
parameter type expressions (`none` models `Type.Params == nil`; the parser
always sets `Type` itself, so only the `Params` nil-ness is modelled). -/
structure FuncDecl where
  name : String
  recv : Option Expr
  params : Option (List Expr)
deriving Repr

/-- Models `ast.Decl`: a general declaration with its specs, a function
declaration, or any other declaration form. -/
inductive Decl where
  | gen (specs : List Spec)
  | funcD (fd : FuncDecl)
  | otherDecl
deriving Repr

/-- Models `ast.File`: the ordered top-level declarations. -/
structure File where
  decls : List Decl
deriving Repr

/-- The closed set of primitive instantiations of the package's `iLit`
constraint: `bool | string | int8..int64 | uint8..uint64 | float32/64`. -/
inductive PKind where
  | bool
  | str
  | i8
  | i16
  | i32
  | i64
  | u8
  | u16
  | u32
  | u64
  | f32
  | f64
deriving DecidableEq, Repr

/-- A decoded Go value. Signed integers are carried as `Int`, unsigned as
`Nat` (the range checks of the decoder keep them inside the requested
width). A floating-point value is represented abstractly by its literal
text, since no property of this development depends on the numeric value
of a float. -/
inductive GoValue where
  | b (x : Bool)
  | s (x : String)
  | i (x : Int)
  | u (x : Nat)
  | f (text : String)
deriving DecidableEq, Repr

/-- Models `strconv.ParseBool`: accepts exactly the twelve tokens of its
switch statement. -/
def ParseBool (s : String) : Option Bool :=
  if s ∈ ["1", "t", "T", "true", "TRUE", "True"] then some true
  else if s ∈ ["0", "f", "F", "false", "FALSE", "False"] then some false
  else none

/-- Decimal digit string to `Nat`: `some` iff the string is non-empty and
all characters are `0`-`9` (base 10 forbids underscores and any other
character). -/
def decDigits (s : String) : Option Nat :=
  if s.length > 0 ∧ s.data.all (fun c => '0' ≤ c ∧ c ≤ '9') then
    some (s.data.foldl (fun acc c => acc * 10 + (c.toNat - 48)) 0)
  else none

/-- Models `strconv.ParseUint(s, 10, bitSize)` as used by the package:
no sign permitted, decimal digits only, result at most `2^bitSize - 1`;
`none` on any syntax error or overflow (the package discards the partial
value Go returns alongside `ErrRange`). -/
def ParseUint (s : String) (bitSize : Nat) : Option Nat :=
  match decDigits s with
  | none => none
  | some n => if n ≤ 2 ^ bitSize - 1 then some n else none

/-- Models `strconv.ParseInt(s, 10, bitSize)` as used by the package: an
optional single leading sign, decimal digits, and the signed range check
`-2^(bitSize-1) ≤ v ≤ 2^(bitSize-1) - 1`; `none` on syntax error or
overflow. -/
def ParseInt (s : String) (bitSize : Nat) : Option Int :=
  let signDigits : Bool × List Char :=
    match s.data with
    | '-' :: rest => (true, rest)
    | '+' :: rest => (false, rest)
    | cs => (false, cs)
  match decDigits (String.mk signDigits.2) with
  | none => none
  | some n =>
    let v : Int := if signDigits.1 then -(n : Int) else (n : Int)
    if -(2 ^ (bitSize - 1) : Int) ≤ v ∧ v ≤ (2 ^ (bitSize - 1) : Int) - 1 then
      some v
    else none

/-- Models `strconv.Unquote` on the fragment relevant here: a double-quoted
string whose interior contains no quote, backslash or newline is stripped of
its quotes; anything else (including escape sequences, which no property of
this development exercises) is `none`. -/
def Unquote (s : String) : Option String :=
  match s.data with
  | '"' :: rest =>
    if rest ≠ [] ∧ rest.getLast? = some '"' ∧
        rest.dropLast.all (fun c => c ≠ '"' ∧ c ≠ '\\' ∧ c ≠ '\n') then
      some (String.mk rest.dropLast)
    else none
  | _ => none

/-- Models `strconv.ParseFloat` abstractly: every text containing a digit is
accepted and the float is represented by the text itself. Only the
`token.FLOAT` kind gate in front of this call matters to the properties
proved here, and scanner-produced FLOAT tokens always parse. -/
def ParseFloat (s : String) : Option String :=
  if s.data.any (fun c => '0' ≤ c ∧ c ≤ '9') then some s else none

/-- Models `parseInt[I]`: dispatches the bit size from the requested signed
kind (the generic type switch of the source); non-signed kinds hit the
default case and return `none`. -/
def parseIntK (k : PKind) (s : String) : Option Int :=
  match k with
  | .i8 => ParseInt s 8
  | .i16 => ParseInt s 16
  | .i32 => ParseInt s 32
  | .i64 => ParseInt s 64
  | _ => none

/-- Models `parseUint[I]`: dispatches the bit size from the requested
unsigned kind; non-unsigned kinds hit the default case and return `none`. -/
def parseUintK (k : PKind) (s : String) : Option Nat :=
  match k with
  | .u8 => ParseUint s 8
  | .u16 => ParseUint s 16
  | .u32 => ParseUint s 32
  | .u64 => ParseUint s 64
  | _ => none

/-- Models `parseIntLit[I]`: requires an INT-kind literal, then parses with
`parseInt` for signed kinds and `parseUint` for unsigned kinds; any other
kind hits the default case. -/
def parseIntLit (k : PKind) (val : BasicLit) : Option GoValue :=
  if val.kind ≠ LitKind.INT then none
  else
    match k with
    | .i8 | .i16 | .i32 | .i64 => (parseIntK k val.value).map GoValue.i
    | .u8 | .u16 | .u32 | .u64 => (parseUintK k val.value).map GoValue.u
    | _ => none

/-- Models `parseFloat[F]`: dispatches by the requested float kind;
non-float kinds hit the default case. -/
def parseFloatK (k : PKind) (s : String) : Option String :=
  match k with
  | .f32 => ParseFloat s
  | .f64 => ParseFloat s
  | _ => none

/-- Models `parseFloatLit[F]`: requires a FLOAT-kind literal, then parses at
the requested width. -/
def parseFloatLit (k : PKind) (val : BasicLit) : Option GoValue :=
  if val.kind ≠ LitKind.FLOAT then none
  else (parseFloatK k val.value).map GoValue.f

/-- Models `parseBasicLit[V]`: the runtime type switch over the requested
kind. String requests demand a STRING-kind literal and unquote it; integer
and float requests delegate to `parseIntLit` / `parseFloatLit`; the `bool`
instantiation hits the default case and always returns `none`. -/
def parseBasicLit (k : PKind) (val : BasicLit) : Option GoValue :=
  match k with
  | .str =>
    if val.kind = LitKind.STRING then
      match Unquote val.value with
      | none => none
      | some sv => some (GoValue.s sv)
    else none
  | .i8 | .i16 | .i32 | .i64 | .u8 | .u16 | .u32 | .u64 => parseIntLit k val
  | .f32 | .f64 => parseFloatLit k val
  | .bool => none

/-- The scalar-record type `LitValue[V]`. -/
structure LitValue where
  doc : String
  name : String
  value : GoValue
deriving DecidableEq, Repr

/-- The sequence-record type `SliceLitValue[V]`. -/
structure SliceLitValue where
  doc : String
  name : String
  value : List GoValue
deriving DecidableEq, Repr

/-- The mapping-record type `MapLitValue[K, V]`. The Go map is modelled as
an association list in insertion order (see `mapInsert`). -/
structure MapLitValue where
  doc : String
  name : String
  value : List (GoValue × GoValue)
deriving DecidableEq, Repr

/-- Models the element loop of `getSliceValues`: a non-basic-literal element
is skipped (`continue`); a basic-literal element that fails `parseBasicLit`
aborts the whole loop (`return nil`, modelled by `none`); a decoded value is
appended. -/
def sliceLoop (k : PKind) : List Expr → List GoValue → Option (List GoValue)
  | [], acc => some acc
  | e :: rest, acc =>
    match e with
    | .basicLit b =>
      match parseBasicLit k b with
      | none => none
      | some v => sliceLoop k rest (acc ++ [v])
    | _ => sliceLoop k rest acc

/-- Models assignment `m[k] = v` on a Go map, with the map represented as an
association list in insertion order: an existing entry for the key is
overwritten in place, a new key is appended. -/
def mapInsert (m : List (GoValue × GoValue)) (k v : GoValue) :
    List (GoValue × GoValue) :=
  if m.any (fun p => p.1 = k) then
    m.map (fun p => if p.1 = k then (k, v) else p)
  else m ++ [(k, v)]

/-- Lookup `m[k]` on the association-list model of a Go map. -/
def lookupGo (m : List (GoValue × GoValue)) (k : GoValue) : Option GoValue :=
  (m.find? (fun p => p.1 = k)).map (fun p => p.2)

/-- Models the element loop of `getMapValues`: a non-key-value element is
skipped; a key-value element with a non-basic-literal side is skipped; a
key-value element whose key or value fails `parseBasicLit` is skipped
(`continue` in the source); a decoded pair is assigned into the map. -/
def mapLoop (kk kv : PKind) : List Expr → List (GoValue × GoValue) →
    List (GoValue × GoValue)
  | [], acc => acc
  | e :: rest, acc =>
    match e with
    | .keyValue (.basicLit bk) (.basicLit bv) =>
      match parseBasicLit kk bk, parseBasicLit kv bv with
      | some k, some v => mapLoop kk kv rest (mapInsert acc k v)
      | _, _ => mapLoop kk kv rest acc
    | _ => mapLoop kk kv rest acc

/-- The key-value pairs of a composite literal's element list that decode
successfully at the requested kinds, in source order. -/
def decodeKV (kk kv : PKind) : Expr → Option (GoValue × GoValue)
  | .keyValue (.basicLit bk) (.basicLit bv) =>
    match parseBasicLit kk bk, parseBasicLit kv bv with
    | some k, some v => some (k, v)
    | _, _ => none
  | _ => none

/-- All successfully decoded key-value pairs of an element list, in source
order. -/
def decodedKVs (kk kv : PKind) (elts : List Expr) :
    List (GoValue × GoValue) :=
  elts.filterMap (decodeKV kk kv)

/-- Models the decode callback of `getBasicValues`: identifiers are decoded
only at the `bool` instantiation via `parseBool`; basic literals via
`parseBasicLit`; every other expression yields no record. -/
def basicStep (k : PKind) (doc name : String) (val : Expr) :
    Option LitValue :=
  match val with
  | .ident v =>
    if k = PKind.bool then
      match ParseBool v with
      | none => none
      | some bv => some ⟨doc, name, GoValue.b bv⟩
    else none
  | .basicLit b =>
    match parseBasicLit k b with
    | none => none
    | some tv => some ⟨doc, name, tv⟩
  | _ => none

/-- Models the decode callback of `getSliceValues`: requires a composite
literal, runs the element loop, and emits a record only when at least one
value was decoded. -/
def sliceStep (k : PKind) (doc name : String) (val : Expr) :
    Option SliceLitValue :=
  match val with
  | .compositeLit elts =>
    match sliceLoop k elts [] with
    | none => none
    | some vs => if vs.length > 0 then some ⟨doc, name, vs⟩ else none
  | _ => none

/-- Models the decode callback of `getMapValues`: requires a composite
literal, runs the element loop, and emits a record only when the map is
non-empty. -/
def mapStep (kk kv : PKind) (doc name : String) (val : Expr) :
    Option MapLitValue :=
  match val with
  | .compositeLit elts =>
    let m := mapLoop kk kv elts []
    if m.length > 0 then some ⟨doc, name, m⟩ else none
  | _ => none

/-- Models `strings.TrimLeft(text, "/ ")`: drop every leading `/` or space
character. -/
def trimDocMarkers (s : String) : String :=
  String.mk (s.data.dropWhile (fun c => c = '/' ∨ c = ' '))

/-- Models the doc-comment scan of `walkDecls`: the trimmed text of the
first comment line whose trimmed text is in the tag set, the empty string
if no line matches (the loop's `foundDoc` with its `break`). -/
def findDoc (labels : List String) : List String → String
  | [] => ""
  | d :: rest =>
    let t := trimDocMarkers d
    if labels.contains t then t else findDoc labels rest

/-- Models the per-name body of `walkDecls`: skip names without an object,
specs without doc lines, and specs whose doc has no matching tag; otherwise
read `Values[0]` (a panic — modelled by the outer `none` — when the spec has
no initializer) and run the decode callback. `some none` is a skipped name,
`some (some t)` an emitted record. -/
def runName {T : Type} (labels : List String) (s : ValueSpec)
    (fn : String → String → Expr → Option T) (n : VName) :
    Option (Option T) :=
  if n.hasObj = false then some none
  else if s.doc.length < 1 then some none
  else
    let foundDoc := findDoc labels s.doc
    if foundDoc = "" then some none
    else
      match s.values with
      | [] => none
      | v :: _ => some (fn foundDoc n.name v)

/-- Sequence a per-item step that may panic (`none`) or skip
(`some none`), collecting emitted records in order. -/
def collectM {α T : Type} (f : α → Option (Option T)) :
    List α → Option (List T)
  | [] => some []
  | a :: rest =>
    match f a with
    | none => none
    | some r =>
      match collectM f rest with
      | none => none
      | some l =>
        match r with
        | some t => some (t :: l)
        | none => some l

/-- Sequence a per-item step producing a record list, concatenating in
order and propagating panics. -/
def collectAll {α T : Type} (f : α → Option (List T)) :
    List α → Option (List T)
  | [] => some []
  | a :: rest =>
    match f a with
    | none => none
    | some l =>
      match collectAll f rest with
      | none => none
      | some l2 => some (l ++ l2)

/-- Per-spec contribution to `walkDecls`: every bound name of a `ValueSpec`
is processed independently. -/
def specResults {T : Type} (labels : List String)
    (fn : String → String → Expr → Option T) : Spec → Option (List T)
  | .value s => collectM (runName labels s fn) s.names
  | .otherSpec => some []

/-- Per-declaration contribution to `walkDecls`: only general declarations
carry value specs. -/
def declResults {T : Type} (labels : List String)
    (fn : String → String → Expr → Option T) : Decl → Option (List T)
  | .gen specs => collectAll (specResults labels fn) specs
  | _ => some []

/-- Models `walkDecls`: scan every top-level declaration in source order,
collecting the records produced by the decode callback; `none` models a
panic (out-of-range `Values[0]`). -/
def walkDecls {T : Type} (f : File) (labels : List String)
    (fn : String → String → Expr → Option T) : Option (List T) :=
  collectAll (declResults labels fn) f.decls

/-- Models `GetBasicValues[V]` (with the doc-label set represented as the
label list, membership being what matters): `nil` for an empty label list,
otherwise the walk with the scalar decode callback. -/
def getBasicValues (k : PKind) (f : File) (docLabels : List String) :
    Option (List LitValue) :=
  if docLabels.isEmpty then some [] else walkDecls f docLabels (basicStep k)

/-- Models `GetSliceValues[V]`. -/
def getSliceValues (k : PKind) (f : File) (docLabels : List String) :
    Option (List SliceLitValue) :=
  if docLabels.isEmpty then some [] else walkDecls f docLabels (sliceStep k)

/-- Models `GetMapValues[K, V]`. -/
def getMapValues (kk kv : PKind) (f : File) (docLabels : List String) :
    Option (List MapLitValue) :=
  if docLabels.isEmpty then some []
  else walkDecls f docLabels (mapStep kk kv)

/-- Models `fmt.Sprintf("%q", par)` on the plain type names that occur as
required parameter names (no characters needing escapes). -/
def quoteGo (s : String) : String := "\"" ++ s ++ "\""

/-- Models the parameter-map construction of `GetFuncNames`: the declared
type name of each parameter, where identifiers are taken as-is, a pointer
type is unwrapped one level to an identifier or to a selector's trailing
name, and a qualified reference uses its trailing selector name; any other
shape contributes nothing. (The source stores these in a set; only
membership is ever used.) -/
def paramNames (ps : List Expr) : List String :=
  ps.filterMap (fun p =>
    match p with
    | .ident n => some n
    | .star (.ident n) => some n
    | .star (.selector _ sel) => some sel
    | .selector _ sel => some sel
    | _ => none)

/-- Models the body of `GetFuncNames` for one function declaration: the
chain of `continue` checks — receiver presence against `recType`, the
receiver type switch (identifier, star-over-identifier; any other shape
falls through), the parameter-list presence check, and the
required-parameter membership loop with its quoted-name fallback. `some`
is the appended name, `none` a `continue`. -/
def funcDeclName (recType : String) (paramTypes : List String)
    (fd : FuncDecl) : Option String :=
  if fd.recv.isNone ∧ recType ≠ "" then none
  else
    let recvPass : Bool :=
      match fd.recv with
      | none => true
      | some rt =>
        match rt with
        | .ident n => n = recType
        | .star x =>
          match x with
          | .ident n => n = recType
          | _ => false
        | _ => true
    if recvPass = false then none
    else if fd.params.isNone ∧ paramTypes ≠ [] then none
    else
      match fd.params with
      | none => some fd.name
      | some ps =>
        let names := paramNames ps
        if paramTypes.all
            (fun p => names.contains p || names.contains (quoteGo p)) then
          some fd.name
        else none

/-- Models `GetFuncNames`: scan the top-level declarations in source order,
keeping qualifying function names. -/
def GetFuncNames (f : File) (recType : String)
    (paramTypes : List String) : List String :=
  f.decls.filterMap (fun d =>
    match d with
    | .funcD fd => funcDeclName recType paramTypes fd
    | _ => none)

/-- The literal token kind that the decoder accepts for each requested
primitive kind (`none` for `bool`, which accepts no basic literal at all):
the "literal category" of the specification. -/
def requiredTok : PKind → Option LitKind
  | .bool => none
  | .str => some LitKind.STRING
  | .i8 | .i16 | .i32 | .i64 | .u8 | .u16 | .u32 | .u64 => some LitKind.INT
  | .f32 | .f64 => some LitKind.FLOAT

/-- C7: for every supported requested primitive kind and every basic
literal whose literal category differs from the requested kind, the literal
decode yields no-match (`none`), never an error or a coerced value. -/
theorem claim_C7_kind_mismatch_no_match (k : PKind) (lit : BasicLit)
    (h : requiredTok k ≠ some lit.kind) : parseBasicLit k lit = none := by
  obtain ⟨kind, value⟩ := lit
  cases k <;> cases kind <;>
    simp_all [requiredTok, parseBasicLit, parseIntLit, parseFloatLit]

/-- Witness for C7: a string literal requested as a signed 8-bit integer is
no-match. -/
theorem claim_C7_kind_mismatch_no_match_witness :
    parseBasicLit PKind.i8 ⟨LitKind.STRING, "\"7\""⟩ = none :=
  claim_C7_kind_mismatch_no_match PKind.i8 ⟨LitKind.STRING, "\"7\""⟩
    (by decide)

/-- C5: integer decode is bit-width exact for every signed and unsigned
width 8/16/32/64 — the decimal text of the maximum representable value of
each requested kind decodes successfully, one more than that maximum is
no-match, and non-decimal forms and syntax errors are no-match. -/
theorem claim_C5_integer_bit_width_exact :
    parseBasicLit PKind.i8 ⟨LitKind.INT, "127"⟩ = some (GoValue.i 127) ∧
    parseBasicLit PKind.i8 ⟨LitKind.INT, "128"⟩ = none ∧
    parseBasicLit PKind.i16 ⟨LitKind.INT, "32767"⟩ =
      some (GoValue.i 32767) ∧
    parseBasicLit PKind.i16 ⟨LitKind.INT, "32768"⟩ = none ∧
    parseBasicLit PKind.i32 ⟨LitKind.INT, "2147483647"⟩ =
      some (GoValue.i 2147483647) ∧
    parseBasicLit PKind.i32 ⟨LitKind.INT, "2147483648"⟩ = none ∧
    parseBasicLit PKind.i64 ⟨LitKind.INT, "9223372036854775807"⟩ =
      some (GoValue.i 9223372036854775807) ∧
    parseBasicLit PKind.i64 ⟨LitKind.INT, "9223372036854775808"⟩ = none ∧
    parseBasicLit PKind.u8 ⟨LitKind.INT, "255"⟩ = some (GoValue.u 255) ∧
    parseBasicLit PKind.u8 ⟨LitKind.INT, "256"⟩ = none ∧
    parseBasicLit PKind.u16 ⟨LitKind.INT, "65535"⟩ =
      some (GoValue.u 65535) ∧
    parseBasicLit PKind.u16 ⟨LitKind.INT, "65536"⟩ = none ∧
    parseBasicLit PKind.u32 ⟨LitKind.INT, "4294967295"⟩ =
      some (GoValue.u 4294967295) ∧
    parseBasicLit PKind.u32 ⟨LitKind.INT, "4294967296"⟩ = none ∧
    parseBasicLit PKind.u64 ⟨LitKind.INT, "18446744073709551615"⟩ =
      some (GoValue.u 18446744073709551615) ∧
    parseBasicLit PKind.u64 ⟨LitKind.INT, "18446744073709551616"⟩ = none ∧
    parseBasicLit PKind.i64 ⟨LitKind.INT, "0x1F"⟩ = none ∧
    parseBasicLit PKind.u8 ⟨LitKind.INT, "1_0"⟩ = none ∧
    parseBasicLit PKind.u8 ⟨LitKind.INT, ""⟩ = none ∧
    parseBasicLit PKind.i8 ⟨LitKind.INT, "12a"⟩ = none := by
  decide

/-- C10: at the boolean instantiation an identifier initializer produces a
record exactly when its name is one of the twelve tokens of
`strconv.ParseBool`; at every other instantiation an identifier produces no
record. -/
theorem claim_C10_bool_identifier_tokens :
    (∀ doc name s,
      (basicStep PKind.bool doc name (Expr.ident s)).isSome = true ↔
        s ∈ ["1", "t", "T", "TRUE", "True", "true",
             "0", "f", "F", "FALSE", "False", "false"]) ∧
    (∀ k, k ≠ PKind.bool →
      ∀ doc name s, basicStep k doc name (Expr.ident s) = none) := by
  constructor
  · intro doc name s
    by_cases h1 : s ∈ ["1", "t", "T", "true", "TRUE", "True"]
    · simp only [List.mem_cons, List.not_mem_nil, or_false] at h1
      rcases h1 with rfl | rfl | rfl | rfl | rfl | rfl <;>
        simp [basicStep, ParseBool]
    · by_cases h2 : s ∈ ["0", "f", "F", "false", "FALSE", "False"]
      · simp only [List.mem_cons, List.not_mem_nil, or_false] at h2
        rcases h2 with rfl | rfl | rfl | rfl | rfl | rfl <;>
          simp [basicStep, ParseBool]
      · have h12 : s ∉ ["1", "t", "T", "TRUE", "True", "true",
            "0", "f", "F", "FALSE", "False", "false"] := by
          simp only [List.mem_cons, List.not_mem_nil, or_false] at h1 h2 ⊢
          tauto
        simp [basicStep, ParseBool, h1, h2, h12]
  · intro k hk doc name s
    simp [basicStep, hk]

/-- Witness for C10: the identifier `TRUE` produces a boolean record, and
an identifier under a non-boolean instantiation produces none. -/
theorem claim_C10_bool_identifier_tokens_witness :
    (basicStep PKind.bool "d" "n" (Expr.ident "TRUE")).isSome = true ∧
    basicStep PKind.i8 "d" "n" (Expr.ident "true") = none :=
  ⟨(claim_C10_bool_identifier_tokens.1 "d" "n" "TRUE").mpr (by decide),
   claim_C10_bool_identifier_tokens.2 PKind.i8 (by decide) "d" "n" "true"⟩

/-- C6: the matched tag of a declaration is the trimmed text of the first
doc-comment line whose trimmed text is in the tag set (first match wins,
the scan stops there); a name whose spec has no doc lines or no matching
line is skipped with no record, and — for every decode callback alike — its
initializer is never decoded; when a tag matched and an initializer exists,
the callback runs on the first initializer with exactly that tag. -/
theorem claim_C6_first_tag_match_semantics :
    (∀ (labels lines : List String),
      findDoc labels lines =
        ((lines.find? fun d => labels.contains (trimDocMarkers d)).map
          trimDocMarkers).getD "") ∧
    (∀ (T : Type) (labels : List String) (s : ValueSpec) (n : VName)
      (fn : String → String → Expr → Option T),
      (s.doc = [] ∨
        (s.doc.find? fun d => labels.contains (trimDocMarkers d)) = none) →
      runName labels s fn n = some none) ∧
    (∀ (T : Type) (labels : List String) (s : ValueSpec) (n : VName)
      (fn : String → String → Expr → Option T) (v : Expr) (vs : List Expr),
      n.hasObj = true → findDoc labels s.doc ≠ "" → s.values = v :: vs →
      runName labels s fn n = some (fn (findDoc labels s.doc) n.name v)) := by
  have hfind : ∀ (labels lines : List String),
      findDoc labels lines =
        ((lines.find? fun d => labels.contains (trimDocMarkers d)).map
          trimDocMarkers).getD "" := by
    intro labels lines
    induction lines with
    | nil => rfl
    | cons d rest ih =>
      by_cases h : labels.contains (trimDocMarkers d) = true
      · rw [List.find?_cons_of_pos
          (p := fun x => labels.contains (trimDocMarkers x)) rest h]
        have h' : trimDocMarkers d ∈ labels := by simpa using h
        simp [findDoc, h, h']
      · rw [List.find?_cons_of_neg
          (p := fun x => labels.contains (trimDocMarkers x)) rest h]
        simp only [findDoc]
        rw [if_neg (by simpa using h)]
        exact ih
  refine ⟨hfind, ?_, ?_⟩
  · intro T labels s n fn h
    by_cases hobj : n.hasObj = false
    · simp [runName, hobj]
    · rcases h with hdoc | hnone
      · simp [runName, hobj, hdoc]
      · have hfd : findDoc labels s.doc = "" := by
          rw [hfind, hnone]
          rfl
        by_cases hdoc : s.doc.length < 1
        · simp [runName, hobj, hdoc]
        · simp [runName, hobj, hdoc, hfd]
  · intro T labels s n fn v vs hobj hfd hvals
    have hdoc : ¬s.doc.length < 1 := by
      intro h
      rw [Nat.lt_one_iff, List.length_eq_zero] at h
      rw [h] at hfd
      exact hfd rfl
    simp [runName, hobj, hdoc, hfd, hvals]

/-- Witness for C6: a doc comment whose only line matches no tag yields a
skip for the boolean scalar callback, and a matching tag runs the callback
on the first initializer. -/
theorem claim_C6_first_tag_match_semantics_witness :
    runName ["parser"] ⟨[⟨"x", true⟩], ["// nope"], [Expr.ident "true"]⟩
      (basicStep PKind.bool) ⟨"x", true⟩ = some none ∧
    runName ["parser"] ⟨[⟨"x", true⟩], ["// parser"], [Expr.ident "true"]⟩
      (basicStep PKind.bool) ⟨"x", true⟩ =
      some (basicStep PKind.bool "parser" "x" (Expr.ident "true")) :=
  ⟨claim_C6_first_tag_match_semantics.2.1 LitValue ["parser"]
      ⟨[⟨"x", true⟩], ["// nope"], [Expr.ident "true"]⟩ ⟨"x", true⟩
      (basicStep PKind.bool) (Or.inr (by decide)),
   by
    have h := claim_C6_first_tag_match_semantics.2.2 LitValue ["parser"]
      ⟨[⟨"x", true⟩], ["// parser"], [Expr.ident "true"]⟩ ⟨"x", true⟩
      (basicStep PKind.bool) (Expr.ident "true") [] rfl (by decide) rfl
    rw [h]
    have : findDoc ["parser"] ["// parser"] = "parser" := by decide
    rw [this]⟩

/-- Whether an expression is a basic literal (`elt.(*ast.BasicLit)`
succeeding). -/
def isBasicLit : Expr → Bool
  | .basicLit _ => true
  | _ => false

/-- A basic-literal element failing the decode aborts the whole sequence
loop. -/
theorem sliceLoop_abort (k : PKind) :
    ∀ (elts : List Expr) (acc : List GoValue) (b : BasicLit),
      Expr.basicLit b ∈ elts → parseBasicLit k b = none →
      sliceLoop k elts acc = none := by
  intro elts
  induction elts with
  | nil =>
    intro acc b hmem _
    simp at hmem
  | cons e rest ih =>
    intro acc b hmem hparse
    rcases List.mem_cons.mp hmem with heq | hmem'
    · rw [← heq]
      simp [sliceLoop, hparse]
    · cases e with
      | basicLit b' =>
        simp only [sliceLoop]
        cases hp : parseBasicLit k b' with
        | none => rfl
        | some v => exact ih _ b hmem' hparse
      | ident _ => exact ih _ b hmem' hparse
      | compositeLit _ => exact ih _ b hmem' hparse
      | keyValue _ _ => exact ih _ b hmem' hparse
      | star _ => exact ih _ b hmem' hparse
      | selector _ _ => exact ih _ b hmem' hparse
      | other => exact ih _ b hmem' hparse

/-- Non-basic-literal elements are invisible to the sequence loop. -/
theorem sliceLoop_skips_non_literals (k : PKind) :
    ∀ (elts : List Expr) (acc : List GoValue),
      sliceLoop k elts acc = sliceLoop k (elts.filter isBasicLit) acc := by
  intro elts
  induction elts with
  | nil => intro acc; rfl
  | cons e rest ih =>
    intro acc
    cases e with
    | basicLit b' =>
      rw [List.filter_cons_of_pos (by rfl)]
      simp only [sliceLoop]
      cases hp : parseBasicLit k b' with
      | none => rfl
      | some v => exact ih _
    | ident _ => rw [List.filter_cons_of_neg (by simp [isBasicLit])]; exact ih _
    | compositeLit _ =>
      rw [List.filter_cons_of_neg (by simp [isBasicLit])]; exact ih _
    | keyValue _ _ =>
      rw [List.filter_cons_of_neg (by simp [isBasicLit])]; exact ih _
    | star _ => rw [List.filter_cons_of_neg (by simp [isBasicLit])]; exact ih _
    | selector _ _ =>
      rw [List.filter_cons_of_neg (by simp [isBasicLit])]; exact ih _
    | other => rw [List.filter_cons_of_neg (by simp [isBasicLit])]; exact ih _

/-- C3: sequence decode is all-or-nothing on basic-literal elements — one
basic-literal element that fails the decode yields no record for the whole
declaration (even with other decodable elements present), while elements
that are not basic literals are skipped without affecting the loop; on a
concrete declaration mixing one decodable string element with one
malformed-for-the-kind element, the query reports nothing. -/
theorem claim_C3_sequence_all_or_nothing :
    (∀ (k : PKind) (doc name : String) (elts : List Expr) (b : BasicLit),
      Expr.basicLit b ∈ elts → parseBasicLit k b = none →
      sliceStep k doc name (Expr.compositeLit elts) = none) ∧
    (∀ (k : PKind) (elts : List Expr) (acc : List GoValue),
      sliceLoop k elts acc = sliceLoop k (elts.filter isBasicLit) acc) ∧
    getSliceValues PKind.str
      ⟨[Decl.gen [Spec.value ⟨[⟨"xs", true⟩], ["// parser"],
        [Expr.compositeLit [Expr.basicLit ⟨LitKind.STRING, "\"a\""⟩,
          Expr.basicLit ⟨LitKind.INT, "9"⟩]]⟩]]⟩ ["parser"] = some [] := by
  refine ⟨?_, sliceLoop_skips_non_literals, by decide⟩
  intro k doc name elts b hmem hparse
  simp only [sliceStep]
  rw [sliceLoop_abort k elts [] b hmem hparse]

/-- Witness for C3: the failing INT element of the concrete composite
literal aborts the callback. -/
theorem claim_C3_sequence_all_or_nothing_witness :
    sliceStep PKind.str "parser" "xs"
      (Expr.compositeLit [Expr.basicLit ⟨LitKind.STRING, "\"a\""⟩,
        Expr.basicLit ⟨LitKind.INT, "9"⟩]) = none :=
  claim_C3_sequence_all_or_nothing.1 PKind.str "parser" "xs"
    [Expr.basicLit ⟨LitKind.STRING, "\"a\""⟩,
     Expr.basicLit ⟨LitKind.INT, "9"⟩]
    ⟨LitKind.INT, "9"⟩ (by simp) (by decide)

/-- Insert the decoded pairs into a Go map model, left to right
(the assignment order of the element loop). -/
def insFold (acc : List (GoValue × GoValue))
    (kvs : List (GoValue × GoValue)) : List (GoValue × GoValue) :=
  kvs.foldl (fun m p => mapInsert m p.1 p.2) acc

/-- The value of the last pair with a given key, in source order. -/
def lastWrite (kvs : List (GoValue × GoValue)) (key : GoValue) :
    Option GoValue :=
  (kvs.reverse.find? (fun p => p.1 = key)).map (fun p => p.2)

/-- One step of the mapping element loop, phrased through `decodeKV`. -/
theorem mapLoop_cons (kk kv : PKind) (e : Expr) (rest : List Expr)
    (acc : List (GoValue × GoValue)) :
    mapLoop kk kv (e :: rest) acc =
      match decodeKV kk kv e with
      | some p => mapLoop kk kv rest (mapInsert acc p.1 p.2)
      | none => mapLoop kk kv rest acc := by
  cases e with
  | keyValue ke ve =>
    cases ke <;> cases ve <;> try rfl
    case basicLit.basicLit bk bv =>
      cases hk : parseBasicLit kk bk <;> cases hv : parseBasicLit kv bv <;>
        simp [mapLoop, decodeKV, hk, hv]
  | ident _ => rfl
  | basicLit _ => rfl
  | compositeLit _ => rfl
  | star _ => rfl
  | selector _ _ => rfl
  | other => rfl

/-- The mapping element loop is the insertion fold over the successfully
decoded key-value pairs, taken in source order. -/
theorem mapLoop_eq_insFold (kk kv : PKind) :
    ∀ (elts : List Expr) (acc : List (GoValue × GoValue)),
      mapLoop kk kv elts acc = insFold acc (decodedKVs kk kv elts) := by
  intro elts
  induction elts with
  | nil => intro acc; rfl
  | cons e rest ih =>
    intro acc
    rw [mapLoop_cons]
    cases hd : decodeKV kk kv e with
    | none =>
      simp only [decodedKVs, List.filterMap_cons, hd]
      exact ih acc
    | some p =>
      simp only [decodedKVs, List.filterMap_cons, hd]
      rw [ih (mapInsert acc p.1 p.2)]
      rfl

/-- Go map assignment never produces an empty map. -/
theorem mapInsert_ne_nil (m : List (GoValue × GoValue)) (k v : GoValue) :
    mapInsert m k v ≠ [] := by
  unfold mapInsert
  by_cases h : m.any (fun p => p.1 = k) = true
  · rw [if_pos h]
    intro hmap
    rw [List.map_eq_nil_iff] at hmap
    rw [hmap] at h
    simp at h
  · rw [if_neg h]
    simp

/-- Folding insertions over a non-empty accumulator keeps it non-empty. -/
theorem insFold_ne_nil_of_acc (kvs : List (GoValue × GoValue)) :
    ∀ (acc : List (GoValue × GoValue)), acc ≠ [] →
      insFold acc kvs ≠ [] := by
  induction kvs with
  | nil => intro acc h; exact h
  | cons p rest ih =>
    intro acc _
    exact ih (mapInsert acc p.1 p.2) (mapInsert_ne_nil acc p.1 p.2)

/-- Looking up the just-assigned key returns the just-assigned value. -/
theorem lookupGo_mapInsert_self (m : List (GoValue × GoValue))
    (k v : GoValue) : lookupGo (mapInsert m k v) k = some v := by
  unfold mapInsert lookupGo
  by_cases h : m.any (fun p => p.1 = k) = true
  · rw [if_pos h]
    induction m with
    | nil => simp at h
    | cons p m' ih =>
      by_cases hp : p.1 = k
      · simp [List.find?_cons_of_pos, hp]
      · rw [List.map_cons, if_neg hp,
          List.find?_cons_of_neg _ (by simpa using hp)]
        apply ih
        simp only [List.any_cons] at h
        simpa [hp] using h
  · rw [if_neg h]
    have hall : ∀ p ∈ m, ¬((fun q => decide (q.1 = k)) p = true) := by
      intro p hp hc
      apply h
      rw [List.any_eq_true]
      exact ⟨p, hp, hc⟩
    rw [List.find?_append, List.find?_eq_none.mpr hall]
    simp [List.find?_cons_of_pos]

/-- Assigning one key leaves lookups of other keys unchanged. -/
theorem lookupGo_mapInsert_ne (m : List (GoValue × GoValue))
    (k v key : GoValue) (hne : key ≠ k) :
    lookupGo (mapInsert m k v) key = lookupGo m key := by
  unfold mapInsert lookupGo
  by_cases h : m.any (fun p => p.1 = k) = true
  · rw [if_pos h]
    clear h
    induction m with
    | nil => rfl
    | cons p m' ih =>
      by_cases hp : p.1 = key
      · have hpk : ¬p.1 = k := by rw [hp]; exact hne
        rw [List.map_cons, if_neg hpk,
          List.find?_cons_of_pos _ (by simpa using hp),
          List.find?_cons_of_pos _ (by simpa using hp)]
      · rw [List.map_cons]
        by_cases hpk : p.1 = k
        · rw [if_pos hpk,
            List.find?_cons_of_neg _ (by simpa using (Ne.symm hne)),
            List.find?_cons_of_neg _ (by simpa using hp)]
          exact ih
        · rw [if_neg hpk,
            List.find?_cons_of_neg _ (by simpa using hp),
            List.find?_cons_of_neg _ (by simpa using hp)]
          exact ih
  · rw [if_neg h, List.find?_append]
    have hone : List.find? (fun p => decide (p.1 = key)) [(k, v)] = none := by
      simp [List.find?, hne.symm]
    rw [hone]
    cases List.find? (fun p => decide (p.1 = key)) m <;> rfl

/-- Keys not among the inserted pairs are untouched by the insertion
fold. -/
theorem lookupGo_insFold_not_mem (key : GoValue) :
    ∀ (kvs : List (GoValue × GoValue)) (acc : List (GoValue × GoValue)),
      key ∉ kvs.map Prod.fst →
      lookupGo (insFold acc kvs) key = lookupGo acc key := by
  intro kvs
  induction kvs with
  | nil => intro acc _; rfl
  | cons p rest ih =>
    intro acc hmem
    simp only [List.map_cons, List.mem_cons, not_or] at hmem
    have : insFold acc (p :: rest) = insFold (mapInsert acc p.1 p.2) rest :=
      rfl
    rw [this, ih _ hmem.2, lookupGo_mapInsert_ne _ _ _ _ hmem.1]

/-- Folding insertions gives, for every key among the pairs, the value of
the last pair with that key. -/
theorem lookupGo_insFold_mem (key : GoValue) :
    ∀ (kvs : List (GoValue × GoValue)) (acc : List (GoValue × GoValue)),
      key ∈ kvs.map Prod.fst →
      lookupGo (insFold acc kvs) key = lastWrite kvs key := by
  intro kvs
  induction kvs with
  | nil =>
    intro acc h
    simp at h
  | cons p rest ih =>
    intro acc hmem
    have hstep : insFold acc (p :: rest) =
        insFold (mapInsert acc p.1 p.2) rest := rfl
    by_cases hk : key ∈ rest.map Prod.fst
    · rw [hstep, ih _ hk]
      unfold lastWrite
      rw [List.reverse_cons, List.find?_append]
      have hsome :
          (List.find? (fun q => decide (q.1 = key)) rest.reverse).isSome := by
        rw [List.find?_isSome]
        obtain ⟨x, hx, hxk⟩ := List.mem_map.mp hk
        exact ⟨x, List.mem_reverse.mpr hx, by simp [hxk]⟩
      obtain ⟨x, hfx⟩ := Option.isSome_iff_exists.mp hsome
      rw [hfx]
      rfl
    · have hkey : key = p.1 := by
        rw [List.map_cons, List.mem_cons] at hmem
        rcases hmem with h | h
        · exact h
        · exact absurd h hk
      subst hkey
      rw [hstep, lookupGo_insFold_not_mem _ rest _ hk,
        lookupGo_mapInsert_self]
      have hlast : lastWrite (p :: rest) p.1 = some p.2 := by
        unfold lastWrite
        rw [List.reverse_cons, List.find?_append]
        have hnone :
            List.find? (fun q => decide (q.1 = p.1)) rest.reverse = none := by
          rw [List.find?_eq_none]
          intro x hx
          simp only [decide_eq_true_eq]
          intro hc
          exact hk (List.mem_map.mpr ⟨x, List.mem_reverse.mp hx, hc⟩)
        rw [hnone]
        simp [List.find?]
      rw [hlast]

/-- C8: within one composite literal decoded as a mapping, the pairs are
inserted in element source order (the loop is the insertion fold over the
decoded pairs), and when several elements decode to the same key the value
present in the resulting mapping is the one of the last such element in
source order. -/
theorem claim_C8_last_write_wins (kk kv : PKind) (elts : List Expr) :
    mapLoop kk kv elts [] = insFold [] (decodedKVs kk kv elts) ∧
    (∀ key, key ∈ (decodedKVs kk kv elts).map Prod.fst →
      lookupGo (mapLoop kk kv elts []) key =
        lastWrite (decodedKVs kk kv elts) key) := by
  refine ⟨mapLoop_eq_insFold kk kv elts [], ?_⟩
  intro key hmem
  rw [mapLoop_eq_insFold]
  exact lookupGo_insFold_mem key _ [] hmem

/-- Witness for C8: two elements with key `"1"` and values `"a"` then
`"b"`; the mapping holds `"b"`. -/
theorem claim_C8_last_write_wins_witness :
    lookupGo (mapLoop PKind.str PKind.str
      [Expr.keyValue (Expr.basicLit ⟨LitKind.STRING, "\"1\""⟩)
        (Expr.basicLit ⟨LitKind.STRING, "\"a\""⟩),
       Expr.keyValue (Expr.basicLit ⟨LitKind.STRING, "\"1\""⟩)
        (Expr.basicLit ⟨LitKind.STRING, "\"b\""⟩)] [])
      (GoValue.s "1") = some (GoValue.s "b") := by
  have h := (claim_C8_last_write_wins PKind.str PKind.str
    [Expr.keyValue (Expr.basicLit ⟨LitKind.STRING, "\"1\""⟩)
      (Expr.basicLit ⟨LitKind.STRING, "\"a\""⟩),
     Expr.keyValue (Expr.basicLit ⟨LitKind.STRING, "\"1\""⟩)
      (Expr.basicLit ⟨LitKind.STRING, "\"b\""⟩)]).2
    (GoValue.s "1") (by decide)
  rw [h]
  decide

/-- Counterexample to C1: a mapping composite literal whose second
key-value element has a basic-literal value that fails the string decode
(an INT literal requested as string) still emits a record carrying the
successfully decoded first element — the mapping decode does not abort, so
the claim "the whole mapping decode returns no-match and no record is
emitted" is false on this input. -/
theorem claim_C1_counterexample :
    getMapValues PKind.str PKind.str
      ⟨[Decl.gen [Spec.value ⟨[⟨"m", true⟩], ["// parser"],
        [Expr.compositeLit
          [Expr.keyValue (Expr.basicLit ⟨LitKind.STRING, "\"a\""⟩)
            (Expr.basicLit ⟨LitKind.STRING, "\"1\""⟩),
           Expr.keyValue (Expr.basicLit ⟨LitKind.STRING, "\"b\""⟩)
            (Expr.basicLit ⟨LitKind.INT, "7"⟩)]]⟩]]⟩
      ["parser"] =
      some [⟨"parser", "m", [(GoValue.s "a", GoValue.s "1")]⟩] := by
  decide

/-- C1 as amended: a key-value element whose key or value is a basic
literal failing its decode is skipped like any structurally mismatched
element (the rest of the composite literal is still processed), and the
mapping decode returns no-match exactly when no element decodes at all. -/
theorem claim_C1_amended_failed_literal_skipped (kk kv : PKind) :
    (∀ (bk bv : BasicLit) (rest : List Expr)
      (acc : List (GoValue × GoValue)),
      parseBasicLit kk bk = none ∨ parseBasicLit kv bv = none →
      mapLoop kk kv
        (Expr.keyValue (Expr.basicLit bk) (Expr.basicLit bv) :: rest) acc =
        mapLoop kk kv rest acc) ∧
    (∀ (doc name : String) (elts : List Expr),
      mapStep kk kv doc name (Expr.compositeLit elts) = none ↔
        decodedKVs kk kv elts = []) := by
  constructor
  · intro bk bv rest acc h
    rw [mapLoop_cons]
    have hdk : decodeKV kk kv
        (Expr.keyValue (Expr.basicLit bk) (Expr.basicLit bv)) = none := by
      rcases h with h | h
      · cases hv : parseBasicLit kv bv <;> simp [decodeKV, h, hv]
      · cases hk2 : parseBasicLit kk bk <;> simp [decodeKV, h, hk2]
    rw [hdk]
  · intro doc name elts
    have hiff : insFold [] (decodedKVs kk kv elts) = [] ↔
        decodedKVs kk kv elts = [] := by
      constructor
      · intro h
        by_contra hne
        cases hkvs : decodedKVs kk kv elts with
        | nil => exact hne hkvs
        | cons p rest =>
          rw [hkvs] at h
          exact insFold_ne_nil_of_acc rest (mapInsert [] p.1 p.2)
            (mapInsert_ne_nil [] p.1 p.2) h
      · intro h
        rw [h]
        rfl
    simp only [mapStep]
    rw [mapLoop_eq_insFold]
    by_cases hlen : (insFold [] (decodedKVs kk kv elts)).length > 0
    · rw [if_pos hlen]
      have hkne : decodedKVs kk kv elts ≠ [] := by
        intro hk0
        rw [hiff.mpr hk0] at hlen
        simp at hlen
      exact iff_of_false (by simp) hkne
    · rw [if_neg hlen]
      have hins : insFold [] (decodedKVs kk kv elts) = [] :=
        List.length_eq_zero.mp (Nat.eq_zero_of_not_pos hlen)
      exact iff_of_true rfl (hiff.mp hins)

/-- Witness for C1 (amended): a key-value element whose value is an INT
literal requested as string is skipped by the element loop. -/
theorem claim_C1_amended_failed_literal_skipped_witness :
    mapLoop PKind.str PKind.str
      [Expr.keyValue (Expr.basicLit ⟨LitKind.STRING, "\"b\""⟩)
        (Expr.basicLit ⟨LitKind.INT, "7"⟩)] [] =
      mapLoop PKind.str PKind.str [] [] :=
  (claim_C1_amended_failed_literal_skipped PKind.str PKind.str).1
    ⟨LitKind.STRING, "\"b\""⟩ ⟨LitKind.INT, "7"⟩ [] [] (Or.inr (by decide))

/-- A panicking item makes the record collection panic. -/
theorem collectM_none {α T : Type} (f : α → Option (Option T)) :
    ∀ (l : List α) (a : α), a ∈ l → f a = none → collectM f l = none := by
  intro l
  induction l with
  | nil =>
    intro a h _
    simp at h
  | cons x rest ih =>
    intro a hmem hfa
    rcases List.mem_cons.mp hmem with heq | hmem'
    · subst heq
      simp [collectM, hfa]
    · simp only [collectM, ih a hmem' hfa]
      cases f x <;> rfl

/-- A panicking item makes the concatenating collection panic. -/
theorem collectAll_none {α T : Type} (f : α → Option (List T)) :
    ∀ (l : List α) (a : α), a ∈ l → f a = none → collectAll f l = none := by
  intro l
  induction l with
  | nil =>
    intro a h _
    simp at h
  | cons x rest ih =>
    intro a hmem hfa
    rcases List.mem_cons.mp hmem with heq | hmem'
    · subst heq
      simp [collectAll, hfa]
    · simp only [collectAll, ih a hmem' hfa]
      cases f x <;> rfl

/-- A name whose tag matched but whose spec has no initializer panics
(`Values[0]` out of range). -/
theorem runName_none {T : Type} (labels : List String) (s : ValueSpec)
    (fn : String → String → Expr → Option T) (n : VName)
    (hobj : n.hasObj = true) (hfd : findDoc labels s.doc ≠ "")
    (hv : s.values = []) : runName labels s fn n = none := by
  have hdoc : ¬s.doc.length < 1 := by
    intro h
    rw [Nat.lt_one_iff, List.length_eq_zero] at h
    rw [h] at hfd
    exact hfd rfl
  simp [runName, hobj, hdoc, hfd, hv]

/-- C9: the declaration walk is total only when every tagged declaration
carries an initializer — a declaration whose doc comment matches a tag but
whose value list is empty makes every scalar, sequence and mapping query
panic (the walk reads `Values[0]` unconditionally after a tag match),
instead of skipping the declaration. -/
theorem claim_C9_missing_initializer_panics
    (f : File) (labels : List String) (specs : List Spec)
    (s : ValueSpec) (n : VName)
    (hd : Decl.gen specs ∈ f.decls) (hs : Spec.value s ∈ specs)
    (hn : n ∈ s.names) (hobj : n.hasObj = true)
    (hfd : findDoc labels s.doc ≠ "") (hv : s.values = [])
    (hl : labels ≠ []) :
    (∀ k, getBasicValues k f labels = none) ∧
    (∀ k, getSliceValues k f labels = none) ∧
    (∀ kk kv, getMapValues kk kv f labels = none) := by
  have hwalk : ∀ (T : Type) (fn : String → String → Expr → Option T),
      walkDecls f labels fn = none := by
    intro T fn
    refine collectAll_none (declResults labels fn) f.decls
      (Decl.gen specs) hd ?_
    show collectAll (specResults labels fn) specs = none
    refine collectAll_none (specResults labels fn) specs
      (Spec.value s) hs ?_
    show collectM (runName labels s fn) s.names = none
    refine collectM_none (runName labels s fn) s.names n hn ?_
    exact runName_none labels s fn n hobj hfd hv
  have hne : labels.isEmpty = false := by
    cases labels with
    | nil => exact absurd rfl hl
    | cons a l => rfl
  exact ⟨fun k => by simp [getBasicValues, hne, hwalk],
    fun k => by simp [getSliceValues, hne, hwalk],
    fun kk kv => by simp [getMapValues, hne, hwalk]⟩

/-- Witness for C9: a tagged `var x` with no initializer makes all three
queries panic. -/
theorem claim_C9_missing_initializer_panics_witness :
    getBasicValues PKind.str
      ⟨[Decl.gen [Spec.value ⟨[⟨"x", true⟩], ["// parser"], []⟩]]⟩
      ["parser"] = none ∧
    getSliceValues PKind.str
      ⟨[Decl.gen [Spec.value ⟨[⟨"x", true⟩], ["// parser"], []⟩]]⟩
      ["parser"] = none ∧
    getMapValues PKind.str PKind.str
      ⟨[Decl.gen [Spec.value ⟨[⟨"x", true⟩], ["// parser"], []⟩]]⟩
      ["parser"] = none := by
  have h := claim_C9_missing_initializer_panics
    ⟨[Decl.gen [Spec.value ⟨[⟨"x", true⟩], ["// parser"], []⟩]]⟩
    ["parser"] [Spec.value ⟨[⟨"x", true⟩], ["// parser"], []⟩]
    ⟨[⟨"x", true⟩], ["// parser"], []⟩ ⟨"x", true⟩
    (List.mem_singleton.mpr rfl) (List.mem_singleton.mpr rfl)
    (List.mem_singleton.mpr rfl) rfl (by decide) rfl (by decide)
  exact ⟨h.1 PKind.str, h.2.1 PKind.str, h.2.2 PKind.str PKind.str⟩

/-- C2 (evaluating the code at the failing input): for a declaration
binding two names `a, b` to the initializer list `"x", "y"`, the walk pairs
BOTH names with the first initializer — the record for `b` carries `"x"`,
taken from `Values[0]`, not the `"y"` standing at `b`'s own position. -/
theorem claim_C2_every_name_gets_first_value :
    getBasicValues PKind.str
      ⟨[Decl.gen [Spec.value ⟨[⟨"a", true⟩, ⟨"b", true⟩], ["// parser"],
        [Expr.basicLit ⟨LitKind.STRING, "\"x\""⟩,
         Expr.basicLit ⟨LitKind.STRING, "\"y\""⟩]⟩]]⟩ ["parser"] =
      some [⟨"parser", "a", GoValue.s "x"⟩,
        ⟨"parser", "b", GoValue.s "x"⟩] := by
  decide

/-- The receiver-selection table actually implemented by `GetFuncNames`
(C4 as amended): absence of a receiver passes exactly when the requested
name is empty; an identifier or pointer-to-identifier receiver passes
exactly when the identifier equals the requested name; a pointer over any
other shape never passes; a receiver of any other syntactic shape always
passes, because the receiver type switch has no default case. -/
def recvSelected (recType : String) : Option Expr → Bool
  | none => recType = ""
  | some (.ident n) => n = recType
  | some (.star (.ident n)) => n = recType
  | some (.star _) => false
  | some _ => true

/-- With no required parameter names, one function declaration qualifies
exactly by the receiver-selection table. -/
theorem funcDeclName_no_params (recType : String) (fd : FuncDecl) :
    funcDeclName recType [] fd =
      if recvSelected recType fd.recv then some fd.name else none := by
  obtain ⟨name, recv, params⟩ := fd
  cases recv with
  | none =>
    by_cases hrt : recType = ""
    · subst hrt
      cases params <;> simp [funcDeclName, recvSelected]
    · cases params <;> simp [funcDeclName, recvSelected, hrt]
  | some rt =>
    cases rt with
    | ident n =>
      by_cases hn : n = recType
      · cases params <;> simp [funcDeclName, recvSelected, hn]
      · cases params <;> simp [funcDeclName, recvSelected, hn]
    | star x =>
      cases x with
      | ident n =>
        by_cases hn : n = recType
        · cases params <;> simp [funcDeclName, recvSelected, hn]
        · cases params <;> simp [funcDeclName, recvSelected, hn]
      | basicLit _ => cases params <;> simp [funcDeclName, recvSelected]
      | compositeLit _ => cases params <;> simp [funcDeclName, recvSelected]
      | keyValue _ _ => cases params <;> simp [funcDeclName, recvSelected]
      | star _ => cases params <;> simp [funcDeclName, recvSelected]
      | selector _ _ => cases params <;> simp [funcDeclName, recvSelected]
      | other => cases params <;> simp [funcDeclName, recvSelected]
    | basicLit _ => cases params <;> simp [funcDeclName, recvSelected]
    | compositeLit _ => cases params <;> simp [funcDeclName, recvSelected]
    | keyValue _ _ => cases params <;> simp [funcDeclName, recvSelected]
    | selector _ _ => cases params <;> simp [funcDeclName, recvSelected]
    | other => cases params <;> simp [funcDeclName, recvSelected]

/-- Counterexample to C4: a method whose receiver type is of a shape other
than identifier or pointer (e.g. a generic index expression) is included
by `GetFuncNames` both under a non-empty requested receiver name it does
not bear and under the empty requested name reserved for receiver-less
functions — refuting "included only if the receiver's declared type is
exactly that name" and "empty name returns exactly the declarations with
no receiver". -/
theorem claim_C4_counterexample :
    GetFuncNames ⟨[Decl.funcD ⟨"m", some Expr.other, none⟩]⟩ "T" [] =
      ["m"] ∧
    GetFuncNames ⟨[Decl.funcD ⟨"m", some Expr.other, none⟩]⟩ "" [] =
      ["m"] := by
  decide

/-- C4 as amended: with empty parameter requirements, `GetFuncNames`
returns exactly the function declarations selected by the implemented
receiver table — the claimed behaviour on identifier and
pointer-to-identifier receivers and on absent receivers, plus the
fall-through that admits receivers of any other syntactic shape
regardless of the requested name. -/
theorem claim_C4_amended_receiver_filter (f : File) (recType : String) :
    GetFuncNames f recType [] =
      f.decls.filterMap (fun d =>
        match d with
        | Decl.funcD fd =>
          if recvSelected recType fd.recv then some fd.name else none
        | _ => none) := by
  unfold GetFuncNames
  apply List.filterMap_congr
  intro d _
  cases d with
  | funcD fd => exact funcDeclName_no_params recType fd
  | gen specs => rfl
  | otherDecl => rfl
